import Mathlib

/-!
Verification of the nyazoom upload/download core against its source
(`src/state.rs`, `src/cache.rs`, `src/main.rs`).

The embedding is shallow and sequential: every handler runs under the
single `tokio::sync::Mutex` over the record map, so each operation is
modelled as a pure function from the ledger (an association list of
token/record pairs mirroring the `HashMap<String, UploadRecord>`) to a
result together with the post ledger.  Filesystem effects that the code
consults are passed in as an explicit `FsEff` record of success flags;
`Res.crash` marks a Rust panic (an `unwrap()` on an error value), while
`Res.err` marks an error value returned or surfaced to the caller.
Time (`chrono::DateTime<Utc>`) is modelled as an integer timestamp in
seconds; `Utc::now()` becomes an explicit `now` parameter.
-/

namespace Nyazoom

/-- `UploadRecord` from `src/state.rs`: `uploaded: DateTime<Utc>` (an
integer timestamp in seconds here), `file: PathBuf` (a string),
`downloads: u8` and `max_downloads: u8` (naturals, kept below 256 by the
byte-validity predicate where the width matters). -/
structure UploadRecord where
  uploaded : Int
  file : String
  downloads : Nat
  max_downloads : Nat
deriving DecidableEq, Repr

/-- `UploadRecord::new` combined with the `Default` impl from
`src/state.rs`: the given file path, `uploaded = Utc::now()` (the `now`
argument), `downloads = 0`, `max_downloads = 5`. -/
def UploadRecord.new (now : Int) (file : String) : UploadRecord :=
  { uploaded := now, file := file, downloads := 0, max_downloads := 5 }

/-- `chrono::Duration::days(3)` in seconds, the TTL used by
`can_be_downloaded`. -/
def ttlSeconds : Int := 3 * 24 * 60 * 60

/-- `UploadRecord::can_be_downloaded` from `src/state.rs`: the duration
since upload is under three days and `downloads < max_downloads`. -/
def UploadRecord.can_be_downloaded (r : UploadRecord) (now : Int) : Bool :=
  decide (now - r.uploaded < ttlSeconds) && decide (r.downloads < r.max_downloads)

/-- `UploadRecord::downloads_remaining` from `src/state.rs`:
`max_downloads - downloads` (u8 subtraction, here natural truncated
subtraction). -/
def UploadRecord.downloads_remaining (r : UploadRecord) : Nat :=
  r.max_downloads - r.downloads

/-- The record ledger: `HashMap<String, UploadRecord>` as an association
list with unique keys. -/
abbrev Ledger := List (String × UploadRecord)

/-- `HashMap::get` / `get_mut` lookup. -/
def lookupRec (id : String) : Ledger → Option UploadRecord
  | [] => none
  | (k, r) :: rest => if k = id then some r else lookupRec id rest

/-- `Entry::remove_entry`: drop the entry with the given key. -/
def eraseRec (id : String) : Ledger → Ledger
  | [] => []
  | (k, r) :: rest => if k = id then eraseRec id rest else (k, r) :: eraseRec id rest

/-- In-place mutation through `get_mut`: replace the record stored under
the given key, leaving every other entry unchanged. -/
def setRec (id : String) (r : UploadRecord) : Ledger → Ledger
  | [] => []
  | (k, r0) :: rest => if k = id then (k, r) :: rest else (k, r0) :: setRec id r rest

/-- `HashMap::insert`: replace the value when the key is present,
otherwise add the entry.  Note the Rust code never checks for a
collision first, so insertion silently overwrites. -/
def insertRec (id : String) (r : UploadRecord) : Ledger → Ledger
  | [] => [(id, r)]
  | (k, r0) :: rest => if k = id then (k, r) :: rest else (k, r0) :: insertRec id r rest

/-- Success flags for the filesystem calls the core makes; `true` means
the call succeeds.  Each field corresponds to one call site:
`tokio::fs::remove_file` in `remove_record`, `File::create(".cache/data")`
in `write_to_cache`, `File::open` in `download`, `File::create` of the
archive and `writer.close()` in `upload_to_zip`. -/
structure FsEff where
  removeFileOk : Bool
  createCacheOk : Bool
  openFileOk : Bool
  createArchiveOk : Bool
  closeArchiveOk : Bool
deriving DecidableEq, Repr

/-- All filesystem calls succeed. -/
def effOk : FsEff := ⟨true, true, true, true, true⟩

/-- `tokio::fs::remove_file` fails, everything else succeeds. -/
def effNoRemove : FsEff := ⟨false, true, true, true, true⟩

/-- `File::create(".cache/data")` fails, everything else succeeds. -/
def effNoCacheCreate : FsEff := ⟨true, false, true, true, true⟩

/-- `File::open` of the backing archive fails, everything else succeeds. -/
def effNoOpen : FsEff := ⟨true, true, false, true, true⟩

/-- Outcome of an operation: `ok` a value, `err` an error value handed
to the caller (`Err` in Rust), or `crash` a panic (`unwrap()` on an
error). -/
inductive Res (α : Type) where
  | ok (a : α)
  | err (msg : String)
  | crash (msg : String)
deriving DecidableEq, Repr

end Nyazoom

namespace Nyazoom

/-!
`src/cache.rs` serializes the record map with `bincode` (little-endian,
fixed-width integers, `u64` lengths, map entries in sequence).  The byte
stream is modelled as a `List Nat`.  A `u64` is eight base-256 digits;
a string is its `u64` length followed by its characters (each character
carried as one list element); the `chrono` timestamp, which serde writes
as a string, is modelled as an injective two-`u64` encoding of the
integer timestamp; a `u8` is a single element.
-/

/-- A `u64` as eight little-endian base-256 digits. -/
def encU64 (n : Nat) : List Nat :=
  [n % 256, n / 256 % 256, n / 65536 % 256, n / 16777216 % 256,
   n / 4294967296 % 256, n / 1099511627776 % 256,
   n / 281474976710656 % 256, n / 72057594037927936 % 256]

/-- Consume a `u64` from the stream. -/
def decU64 : List Nat → Option (Nat × List Nat)
  | b0 :: b1 :: b2 :: b3 :: b4 :: b5 :: b6 :: b7 :: rest =>
      some (b0 + 256 * b1 + 65536 * b2 + 16777216 * b3 + 4294967296 * b4
        + 1099511627776 * b5 + 281474976710656 * b6 + 72057594037927936 * b7, rest)
  | _ => none

/-- A string: `u64` length, then the characters. -/
def encStr (s : String) : List Nat :=
  encU64 s.length ++ s.data.map Char.toNat

/-- Consume `k` characters from the stream. -/
def decChars : Nat → List Nat → Option (List Char × List Nat)
  | 0, rest => some ([], rest)
  | _ + 1, [] => none
  | k + 1, c :: rest =>
      match decChars k rest with
      | some (cs, rest) => some (Char.ofNat c :: cs, rest)
      | none => none

/-- Consume a string from the stream. -/
def decStr (l : List Nat) : Option (String × List Nat) :=
  match decU64 l with
  | some (len, rest) =>
      match decChars len rest with
      | some (cs, rest) => some (String.mk cs, rest)
      | none => none
  | none => none

/-- The timestamp as the pair of magnitudes of `i` and `-i`. -/
def encTime (i : Int) : List Nat :=
  encU64 i.toNat ++ encU64 (-i).toNat

/-- Consume a timestamp from the stream. -/
def decTime (l : List Nat) : Option (Int × List Nat) :=
  match decU64 l with
  | some (a, rest) =>
      match decU64 rest with
      | some (b, rest) => some ((a : Int) - (b : Int), rest)
      | none => none
  | none => none

/-- Consume one `u8` byte from the stream. -/
def decU8 : List Nat → Option (Nat × List Nat)
  | b :: rest => some (b, rest)
  | [] => none

/-- One `UploadRecord`, fields in declaration order:
`uploaded`, `file`, `downloads`, `max_downloads`. -/
def encRecord (r : UploadRecord) : List Nat :=
  encTime r.uploaded ++ encStr r.file ++ [r.downloads % 256] ++ [r.max_downloads % 256]

/-- Consume one `UploadRecord` from the stream. -/
def decRecord (l : List Nat) : Option (UploadRecord × List Nat) :=
  match decTime l with
  | some (t, rest) =>
      match decStr rest with
      | some (f, rest) =>
          match decU8 rest with
          | some (d, rest) =>
              match decU8 rest with
              | some (m, rest) => some (⟨t, f, d, m⟩, rest)
              | none => none
          | none => none
      | none => none
  | none => none

/-- The map entries in sequence, each a key then a record. -/
def encEntries : Ledger → List Nat
  | [] => []
  | (k, r) :: rest => encStr k ++ encRecord r ++ encEntries rest

/-- Consume `k` map entries from the stream. -/
def decEntries : Nat → List Nat → Option (Ledger × List Nat)
  | 0, rest => some ([], rest)
  | k + 1, l =>
      match decStr l with
      | some (key, rest) =>
          match decRecord rest with
          | some (r, rest) =>
              match decEntries k rest with
              | some (es, rest) => some ((key, r) :: es, rest)
              | none => none
          | none => none
      | none => none

/-- `bincode::serialize` of the whole map: the `u64` entry count, then
the entries. -/
def encodeLedger (m : Ledger) : List Nat :=
  encU64 m.length ++ encEntries m

/-- `bincode::deserialize_from` of the map (trailing bytes are left in
the stream). -/
def decodeLedger (l : List Nat) : Option (Ledger × List Nat) :=
  match decU64 l with
  | some (count, rest) => decEntries count rest
  | none => none

/-- `write_to_cache` from `src/cache.rs`: `File::create(".cache/data")`
is unwrapped, so its failure is a panic; the serialized bytes are then
written whole.  (`bincode::serialize_into` of the map cannot fail in this
model, matching the `map_err` branch never being taken for the real
record map.)  The successful result carries the bytes written. -/
def write_to_cache (eff : FsEff) (m : Ledger) : Res (List Nat) :=
  if eff.createCacheOk then .ok (encodeLedger m) else .crash "cache file create failed"

/-- `fetch_cache` from `src/cache.rs`: if opening `.cache/data` fails the
map is empty; otherwise the file contents are read and the deserialize
result is unwrapped — a failure to decode is a panic.  The argument is
`none` when the snapshot file is absent and `some bytes` when present
with those contents. -/
def fetch_cache (file : Option (List Nat)) : Res Ledger :=
  match file with
  | none => .ok []
  | some bytes =>
      match decodeLedger bytes with
      | some (m, _) => .ok m
      | none => .crash "deserialize failed"

end Nyazoom

namespace Nyazoom

/-- `<HashMap as AsyncRemoveRecord>::remove_record` from `src/state.rs`:
on an occupied entry, `tokio::fs::remove_file` on the backing file with
`?` (an error propagates before the entry is touched), then
`remove_entry`, then `write_to_cache` with `?`; on a vacant entry,
`Err("No UploadRecord Found")`.  Result: outcome, post ledger, and
whether a snapshot was written.  (`AppState::remove_record` locks the
map and delegates here, so it is the same function in this model.) -/
def remove_record (eff : FsEff) (m : Ledger) (id : String) : Res Unit × Ledger × Bool :=
  match lookupRec id m with
  | some _ =>
      if eff.removeFileOk then
        let m' := eraseRec id m
        match write_to_cache eff m' with
        | .ok _ => (.ok (), m', true)
        | .err e => (.err e, m', false)
        | .crash e => (.crash e, m', false)
      else (.err "file remove failed", m, false)
  | none => (.err "No UploadRecord Found", m, false)

/-- What the `download` handler returns to the client. -/
inductive DlOut where
  | hxRedirect
  | fileStream (file : String)
  | redirect404
deriving DecidableEq, Repr

/-- The shared tail of `download` (`src/main.rs`, the code after the
lock block): `state.remove_record(&id).await.unwrap()` — an `Err` from
`remove_record` is a panic — then `Redirect::to("/404.html")`. -/
def downloadFall (eff : FsEff) (m : Ledger) (id : String) : Res DlOut × Ledger × Bool :=
  match remove_record eff m id with
  | (.ok _, m', s) => (.ok .redirect404, m', s)
  | (.err e, m', s) => (.crash e, m', s)
  | (.crash e, m', s) => (.crash e, m', s)

/-- The `download` handler from `src/main.rs`: with an `hx-request`
header it answers an HX redirect without touching the ledger; otherwise,
if the record is present and `can_be_downloaded`, `downloads` is
incremented and the backing file opened (`File::open(..).unwrap()` — a
failure after the increment is a panic) and streamed back; otherwise it
falls through to `remove_record(..).unwrap()` and the 404 redirect. -/
def download (eff : FsEff) (now : Int) (hx : Bool) (m : Ledger) (id : String) :
    Res DlOut × Ledger × Bool :=
  if hx then (.ok .hxRedirect, m, false)
  else
    match lookupRec id m with
    | some r =>
        if r.can_be_downloaded now then
          let r' : UploadRecord := { r with downloads := r.downloads + 1 }
          let m' := setRec id r' m
          if eff.openFileOk then (.ok (.fileStream r'.file), m', false)
          else (.crash "file open failed", m', false)
        else downloadFall eff m id
    | none => downloadFall eff m id

/-- What the `link` handler returns to the client. -/
inductive LinkOut where
  | page (r : UploadRecord)
  | redirect404
deriving DecidableEq, Repr

/-- The shared tail of `link` (`src/main.rs`):
`state.remove_record(&id).await.unwrap()` then the 404 redirect. -/
def linkFall (eff : FsEff) (m : Ledger) (id : String) : Res LinkOut × Ledger × Bool :=
  match remove_record eff m id with
  | (.ok _, m', s) => (.ok .redirect404, m', s)
  | (.err e, m', s) => (.crash e, m', s)
  | (.crash e, m', s) => (.crash e, m', s)

/-- The `link` handler from `src/main.rs`: if the record is present and
`can_be_downloaded` the download page is rendered from a clone of the
record (no mutation); otherwise the handler falls through to
`remove_record(..).unwrap()` and the 404 redirect. -/
def link (eff : FsEff) (now : Int) (m : Ledger) (id : String) :
    Res LinkOut × Ledger × Bool :=
  match lookupRec id m with
  | some r =>
      if r.can_be_downloaded now then (.ok (.page r), m, false)
      else linkFall eff m id
  | none => linkFall eff m id

/-- The `link_delete` handler from `src/main.rs`: `remove_record`, an
error mapped to a 500 response (surfaced, not a panic). -/
def link_delete (eff : FsEff) (m : Ledger) (id : String) : Res Unit × Ledger × Bool :=
  remove_record eff m id

/-- The `remaining` handler from `src/main.rs`: reads
`downloads_remaining` when present, answers a placeholder otherwise;
never mutates the ledger. -/
def remaining (m : Ledger) (id : String) : Option Nat :=
  (lookupRec id m).map UploadRecord.downloads_remaining

/-- One pass of the reaper loop body over the cloned entry list
(`src/main.rs`, the task spawned in `main`): for every entry whose
record fails `can_be_downloaded`, `records.remove_record(&key).await.unwrap()`
— an `Err` is a panic that ends the pass. -/
def reaperGo (eff : FsEff) (now : Int) : Ledger → Ledger → Res Unit × Ledger
  | [], m => (.ok (), m)
  | (k, r) :: rest, m =>
      if r.can_be_downloaded now then reaperGo eff now rest m
      else
        match remove_record eff m k with
        | (.ok _, m', _) => reaperGo eff now rest m'
        | (.err e, m', _) => (.crash e, m')
        | (.crash e, m', _) => (.crash e, m')

/-- One cleaning sweep of the reaper: iterate over a point-in-time clone
of the map, removing ineligible records from the live map. -/
def reaperSweep (eff : FsEff) (now : Int) (m : Ledger) : Res Unit × Ledger :=
  reaperGo eff now m m

end Nyazoom

namespace Nyazoom

/-!
The upload path (`upload_to_zip` in `src/main.rs`).  A multipart field
is a `FormPart`: an optional file name and the content bytes.  The
external crate `sanitize_filename_reader_friendly` is not part of this
repository's sources, so its `sanitize` is modelled below; everything
else follows `upload_to_zip` line by line.  The handler also records the
sequence of externally visible events in order, to settle ordering
claims: archive creation, each entry write, ledger insertion, cache
write, archive close.
-/

/-- One multipart field: `field.file_name()` and the field bytes. -/
structure FormPart where
  name : Option String
  content : List Nat
deriving DecidableEq, Repr

/-- Modelled from the spec: the external sanitizer (crate
`sanitize_filename_reader_friendly`, not under `src/`) strips
path-traversal components and path separators so the result has exactly
one path component; it is a total function on strings and never fails.
Here: drop every path separator and dot. -/
def sanitize (s : String) : String :=
  String.mk (s.data.filter (fun c => !(c == '/' || c == '\\' || c == '.')))

/-- The upload loop over the multipart fields: a field with no file name
is skipped (`continue`); otherwise the sanitized name and the bytes are
streamed into one archive entry. -/
def processParts (parts : List FormPart) : List (String × List Nat) :=
  parts.filterMap (fun p => p.name.map (fun n => (sanitize n, p.content)))

/-- The externally visible events of the upload path, in program order. -/
inductive UEvent where
  | createArchive
  | writeEntry (name : String)
  | insertLedger
  | writeCache
  | closeArchive
deriving DecidableEq, Repr

/-- The archive destination `.cache/serve/{token}.zip`. -/
def archivePath (token : String) : String :=
  ".cache/serve/" ++ token ++ ".zip"

/-- The full result of the upload handler. -/
structure UploadOut where
  res : Res String
  ledger : Ledger
  record : Option UploadRecord
  entries : List (String × List Nat)
  events : List UEvent
deriving DecidableEq, Repr

/-- `upload_to_zip` from `src/main.rs`: generate the token (the caller
passes the random `cache_name`), create `.cache/serve/{token}.zip`
(failure is a mapped 500 error before anything else happens), stream
each named field into an archive entry, lock the map, `insert` the new
`UploadRecord` (no collision check — `HashMap::insert` overwrites),
`write_to_cache` (failure inside is a panic on file creation, other
errors map to 500), and only then `writer.close().await.unwrap()`
(failure is a panic).  On success the response carries the token. -/
def upload_to_zip (eff : FsEff) (now : Int) (token : String) (parts : List FormPart)
    (m : Ledger) : UploadOut :=
  if eff.createArchiveOk then
    let es := processParts parts
    let evs := UEvent.createArchive :: es.map (fun e => UEvent.writeEntry e.1)
    let r := UploadRecord.new now (archivePath token)
    let m' := insertRec token r m
    match write_to_cache eff m' with
    | .ok _ =>
        if eff.closeArchiveOk then
          ⟨.ok token, m', some r, es, evs ++ [.insertLedger, .writeCache, .closeArchive]⟩
        else
          ⟨.crash "zip close failed", m', some r, es, evs ++ [.insertLedger, .writeCache]⟩
    | .err e => ⟨.err e, m', some r, es, evs ++ [.insertLedger]⟩
    | .crash e => ⟨.crash e, m', some r, es, evs ++ [.insertLedger]⟩
  else ⟨.err "archive create failed", m, none, [], []⟩

end Nyazoom

namespace Nyazoom

/-!
The download-count invariant: in every reachable ledger state each
record satisfies `downloads ≤ max_downloads`.  `Step` collects the
ledger effect of every operation of the core, with arbitrary filesystem
behaviour, time, and request parameters; `Reachable` is its
reflexive-transitive closure.
-/

/-- Every record of the ledger satisfies `downloads ≤ max_downloads`. -/
def Good (m : Ledger) : Prop :=
  ∀ p ∈ m, p.2.downloads ≤ p.2.max_downloads

theorem mem_eraseRec {p : String × UploadRecord} {id : String} {m : Ledger}
    (h : p ∈ eraseRec id m) : p ∈ m := by
  induction m with
  | nil => simp [eraseRec] at h
  | cons q rest ih =>
      obtain ⟨k, r⟩ := q
      by_cases hk : k = id
      · simp only [eraseRec, hk, if_pos rfl] at h
        exact List.mem_cons_of_mem _ (ih h)
      · simp only [eraseRec, if_neg hk] at h
        rcases List.mem_cons.mp h with h | h
        · exact h ▸ List.mem_cons_self _ _
        · exact List.mem_cons_of_mem _ (ih h)

theorem mem_setRec {p : String × UploadRecord} {id : String} {r : UploadRecord} {m : Ledger}
    (h : p ∈ setRec id r m) : p.2 = r ∨ p ∈ m := by
  induction m with
  | nil => simp [setRec] at h
  | cons q rest ih =>
      obtain ⟨k, r0⟩ := q
      by_cases hk : k = id
      · simp only [setRec, hk, if_pos rfl] at h
        rcases List.mem_cons.mp h with h | h
        · exact Or.inl (by simp [h])
        · exact Or.inr (List.mem_cons_of_mem _ h)
      · simp only [setRec, if_neg hk] at h
        rcases List.mem_cons.mp h with h | h
        · exact Or.inr (h ▸ List.mem_cons_self _ _)
        · rcases ih h with h | h
          · exact Or.inl h
          · exact Or.inr (List.mem_cons_of_mem _ h)

theorem mem_insertRec {p : String × UploadRecord} {id : String} {r : UploadRecord} {m : Ledger}
    (h : p ∈ insertRec id r m) : p.2 = r ∨ p ∈ m := by
  induction m with
  | nil =>
      simp only [insertRec] at h
      rcases List.mem_cons.mp h with h | h
      · exact Or.inl (by simp [h])
      · simp at h
  | cons q rest ih =>
      obtain ⟨k, r0⟩ := q
      by_cases hk : k = id
      · simp only [insertRec, hk, if_pos rfl] at h
        rcases List.mem_cons.mp h with h | h
        · exact Or.inl (by simp [h])
        · exact Or.inr (List.mem_cons_of_mem _ h)
      · simp only [insertRec, if_neg hk] at h
        rcases List.mem_cons.mp h with h | h
        · exact Or.inr (h ▸ List.mem_cons_self _ _)
        · rcases ih h with h | h
          · exact Or.inl h
          · exact Or.inr (List.mem_cons_of_mem _ h)

theorem good_eraseRec {id : String} {m : Ledger} (h : Good m) : Good (eraseRec id m) :=
  fun p hp => h p (mem_eraseRec hp)

theorem good_setRec {id : String} {r : UploadRecord} {m : Ledger} (h : Good m)
    (hr : r.downloads ≤ r.max_downloads) : Good (setRec id r m) := by
  intro p hp
  rcases mem_setRec hp with hp | hp
  · rw [hp]; exact hr
  · exact h p hp

theorem good_insertRec {id : String} {r : UploadRecord} {m : Ledger} (h : Good m)
    (hr : r.downloads ≤ r.max_downloads) : Good (insertRec id r m) := by
  intro p hp
  rcases mem_insertRec hp with hp | hp
  · rw [hp]; exact hr
  · exact h p hp

theorem can_be_downloaded_lt {r : UploadRecord} {now : Int}
    (h : r.can_be_downloaded now = true) : r.downloads < r.max_downloads := by
  simp only [UploadRecord.can_be_downloaded, Bool.and_eq_true, decide_eq_true_eq] at h
  exact h.2

theorem good_remove_record {eff : FsEff} {m : Ledger} {id : String} (h : Good m) :
    Good (remove_record eff m id).2.1 := by
  unfold remove_record
  cases hl : lookupRec id m with
  | none => simpa using h
  | some r =>
      by_cases hrm : eff.removeFileOk
      · simp only [hrm, if_true]
        unfold write_to_cache
        by_cases hc : eff.createCacheOk <;> simp only [hc, if_true, if_false] <;>
          exact good_eraseRec h
      · simpa [hrm] using h

theorem good_downloadFall {eff : FsEff} {m : Ledger} {id : String} (h : Good m) :
    Good (downloadFall eff m id).2.1 := by
  have hg : Good (remove_record eff m id).2.1 := good_remove_record h
  unfold downloadFall
  rcases hrr : remove_record eff m id with ⟨res, m', s⟩
  rw [hrr] at hg
  cases res <;> simpa using hg

theorem good_linkFall {eff : FsEff} {m : Ledger} {id : String} (h : Good m) :
    Good (linkFall eff m id).2.1 := by
  have hg : Good (remove_record eff m id).2.1 := good_remove_record h
  unfold linkFall
  rcases hrr : remove_record eff m id with ⟨res, m', s⟩
  rw [hrr] at hg
  cases res <;> simpa using hg

theorem good_download {eff : FsEff} {now : Int} {hx : Bool} {m : Ledger} {id : String}
    (h : Good m) : Good (download eff now hx m id).2.1 := by
  unfold download
  by_cases hhx : hx = true
  · simpa [hhx] using h
  · simp only [hhx, if_false]
    cases hl : lookupRec id m with
    | none => exact good_downloadFall h
    | some r =>
        by_cases he : r.can_be_downloaded now = true
        · simp only [he, if_true]
          have hlt : r.downloads < r.max_downloads := can_be_downloaded_lt he
          by_cases ho : eff.openFileOk <;>
            simp only [ho, if_true, if_false] <;>
            exact good_setRec h (by show r.downloads + 1 ≤ r.max_downloads; omega)
        · simp only [he, if_false]
          exact good_downloadFall h

theorem good_link {eff : FsEff} {now : Int} {m : Ledger} {id : String}
    (h : Good m) : Good (link eff now m id).2.1 := by
  unfold link
  cases hl : lookupRec id m with
  | none => exact good_linkFall h
  | some r =>
      by_cases he : r.can_be_downloaded now = true
      · simpa [he] using h
      · simp only [he, if_false]
        exact good_linkFall h

theorem good_link_delete {eff : FsEff} {m : Ledger} {id : String}
    (h : Good m) : Good (link_delete eff m id).2.1 :=
  good_remove_record h

theorem good_reaperGo {eff : FsEff} {now : Int} (l : Ledger) {m : Ledger}
    (h : Good m) : Good (reaperGo eff now l m).2 := by
  induction l generalizing m with
  | nil => simpa [reaperGo] using h
  | cons q rest ih =>
      obtain ⟨k, r⟩ := q
      unfold reaperGo
      by_cases he : r.can_be_downloaded now = true
      · simp only [he, if_true]
        exact ih h
      · simp only [he, if_false]
        have hg : Good (remove_record eff m k).2.1 := good_remove_record h
        rcases hrr : remove_record eff m k with ⟨res, m', s⟩
        rw [hrr] at hg
        cases res <;> simp only []
        · exact ih hg
        · simpa using hg
        · simpa using hg

theorem good_reaperSweep {eff : FsEff} {now : Int} {m : Ledger}
    (h : Good m) : Good (reaperSweep eff now m).2 :=
  good_reaperGo m h

theorem good_upload {eff : FsEff} {now : Int} {token : String} {parts : List FormPart}
    {m : Ledger} (h : Good m) : Good (upload_to_zip eff now token parts m).ledger := by
  unfold upload_to_zip
  by_cases hca : eff.createArchiveOk
  · simp only [hca, if_true]
    have hin : Good (insertRec token (UploadRecord.new now (archivePath token)) m) :=
      good_insertRec h (by simp [UploadRecord.new])
    unfold write_to_cache
    by_cases hc : eff.createCacheOk <;> simp only [hc, if_true, if_false]
    · by_cases hcl : eff.closeArchiveOk <;> simpa [hcl] using hin
    · simpa using hin
  · simpa [hca] using h

/-- One operation of the core, as its effect on the ledger: an upload,
a download, a link view, an explicit delete, or a reaper sweep, with
arbitrary filesystem behaviour, time, and request parameters. -/
inductive Step : Ledger → Ledger → Prop where
  | upload (m : Ledger) (eff : FsEff) (now : Int) (token : String) (parts : List FormPart) :
      Step m (upload_to_zip eff now token parts m).ledger
  | dl (m : Ledger) (eff : FsEff) (now : Int) (hx : Bool) (id : String) :
      Step m (download eff now hx m id).2.1
  | view (m : Ledger) (eff : FsEff) (now : Int) (id : String) :
      Step m (link eff now m id).2.1
  | del (m : Ledger) (eff : FsEff) (id : String) :
      Step m (link_delete eff m id).2.1
  | reap (m : Ledger) (eff : FsEff) (now : Int) :
      Step m (reaperSweep eff now m).2

/-- Ledger states reachable by any sequence of operations. -/
def Reachable : Ledger → Ledger → Prop :=
  Relation.ReflTransGen Step

theorem good_step {m m' : Ledger} (h : Good m) (hs : Step m m') : Good m' := by
  cases hs with
  | upload eff now token parts => exact good_upload h
  | dl eff now hx id => exact good_download h
  | view eff now id => exact good_link h
  | del eff id => exact good_link_delete h
  | reap eff now => exact good_reaperSweep h

theorem good_reachable {m0 m : Ledger} (h0 : Good m0) (h : Reachable m0 m) : Good m := by
  induction h with
  | refl => exact h0
  | tail _ hstep ih => exact good_step ih hstep

end Nyazoom

namespace Nyazoom

/-!
Round-trip lemmas for the snapshot encoding, and small helper lemmas
about `insertRec`, `sanitize` and the upload event trace.
-/

/-- Byte-validity of one record: the integral fields fit the machine
widths they have in the source (`u8` counters, 64-bit lengths). -/
def RecordValid (r : UploadRecord) : Prop :=
  r.uploaded.natAbs < 18446744073709551616 ∧ r.file.length < 18446744073709551616 ∧
    r.downloads < 256 ∧ r.max_downloads < 256

instance : DecidablePred RecordValid := fun r => by
  unfold RecordValid; infer_instance

/-- Byte-validity of a ledger: entry count and key lengths fit `u64`,
every record is byte-valid. -/
def ByteValid (m : Ledger) : Prop :=
  m.length < 18446744073709551616 ∧
    ∀ p ∈ m, p.1.length < 18446744073709551616 ∧ RecordValid p.2

instance : DecidablePred ByteValid := fun m => by
  unfold ByteValid; infer_instance

theorem decU64_encU64 (n : Nat) (hn : n < 18446744073709551616) (rest : List Nat) :
    decU64 (encU64 n ++ rest) = some (n, rest) := by
  simp only [encU64, List.cons_append, List.nil_append]
  rw [decU64]
  simp only [Option.some.injEq, Prod.mk.injEq, and_true]
  omega

theorem decChars_append (cs : List Char) (rest : List Nat) :
    decChars cs.length (cs.map Char.toNat ++ rest) = some (cs, rest) := by
  induction cs with
  | nil => simp [decChars]
  | cons c cs ih =>
      simp only [List.length_cons, List.map_cons, List.cons_append]
      rw [decChars, ih]
      simp only [Char.ofNat_toNat]

theorem decStr_encStr (s : String) (hs : s.length < 18446744073709551616)
    (rest : List Nat) : decStr (encStr s ++ rest) = some (s, rest) := by
  unfold encStr decStr
  rw [List.append_assoc, decU64_encU64 _ hs]
  simp only []
  have hl : s.length = s.data.length := rfl
  rw [hl, decChars_append]

theorem decTime_encTime (i : Int) (hi : i.natAbs < 18446744073709551616)
    (rest : List Nat) : decTime (encTime i ++ rest) = some (i, rest) := by
  unfold encTime decTime
  rw [List.append_assoc, decU64_encU64 _ (by omega)]
  simp only []
  rw [decU64_encU64 _ (by omega)]
  simp only [Option.some.injEq, Prod.mk.injEq, and_true]
  omega

theorem decRecord_encRecord (r : UploadRecord) (hr : RecordValid r) (rest : List Nat) :
    decRecord (encRecord r ++ rest) = some (r, rest) := by
  obtain ⟨t, f, d, mx⟩ := r
  obtain ⟨ht, hf, hd, hmx⟩ := hr
  unfold encRecord decRecord
  simp only at ht hf hd hmx ⊢
  rw [List.append_assoc, List.append_assoc, List.append_assoc, decTime_encTime _ ht]
  simp only []
  rw [decStr_encStr _ hf]
  simp only [List.cons_append, List.nil_append]
  rw [decU8]
  simp only []
  rw [decU8]
  simp only []
  rw [Nat.mod_eq_of_lt hd, Nat.mod_eq_of_lt hmx]

theorem decEntries_encEntries (m : Ledger)
    (h : ∀ p ∈ m, p.1.length < 18446744073709551616 ∧ RecordValid p.2)
    (rest : List Nat) : decEntries m.length (encEntries m ++ rest) = some (m, rest) := by
  induction m with
  | nil => simp [encEntries, decEntries]
  | cons q rest' ih =>
      obtain ⟨k, r⟩ := q
      have hk := (h (k, r) (List.mem_cons_self _ _)).1
      have hr := (h (k, r) (List.mem_cons_self _ _)).2
      have hrest : ∀ p ∈ rest', p.1.length < 18446744073709551616 ∧ RecordValid p.2 :=
        fun p hp => h p (List.mem_cons_of_mem _ hp)
      simp only [List.length_cons, encEntries]
      rw [decEntries, List.append_assoc, List.append_assoc, decStr_encStr _ hk]
      simp only []
      rw [decRecord_encRecord _ hr]
      simp only []
      rw [ih hrest]

theorem decodeLedger_encodeLedger (m : Ledger) (h : ByteValid m) :
    decodeLedger (encodeLedger m) = some (m, []) := by
  unfold encodeLedger decodeLedger
  rw [decU64_encU64 _ h.1]
  have := decEntries_encEntries m h.2 []
  rwa [List.append_nil] at this

theorem lookupRec_insertRec_self (id : String) (r : UploadRecord) (m : Ledger) :
    lookupRec id (insertRec id r m) = some r := by
  induction m with
  | nil => simp [insertRec, lookupRec]
  | cons q rest ih =>
      obtain ⟨k, r0⟩ := q
      by_cases hk : k = id
      · simp [insertRec, lookupRec, hk]
      · simp [insertRec, lookupRec, hk, ih]

theorem sanitize_no_separator (s : String) :
    ∀ c ∈ (sanitize s).data, c ≠ '/' ∧ c ≠ '\\' := by
  intro c hc
  unfold sanitize at hc
  have hmem := List.mem_filter.mp hc
  have hp := hmem.2
  simp only [Bool.not_eq_true', Bool.or_eq_false_iff, beq_eq_false_iff_ne] at hp
  exact ⟨hp.1.1, hp.1.2⟩

theorem insertLedger_mem_takeWhile (l : List (String × List Nat)) :
    UEvent.insertLedger ∈
      ((l.map (fun e => UEvent.writeEntry e.1)) ++
        [UEvent.insertLedger, UEvent.writeCache, UEvent.closeArchive]).takeWhile
        (fun e => !(e == UEvent.closeArchive)) := by
  induction l with
  | nil => decide
  | cons q rest ih =>
      simp only [List.map_cons, List.cons_append, List.takeWhile_cons]
      have hq : (!(UEvent.writeEntry q.1 == UEvent.closeArchive)) = true := rfl
      rw [hq]
      simp only [if_true]
      exact List.mem_cons_of_mem _ ih

end Nyazoom

namespace Nyazoom

/-!
The claims.
-/

/-- C1.  The claim says that when the token is absent the caller of the
download operation receives a not-found outcome.  In `src/main.rs` the
fallthrough is `state.remove_record(&id).await.unwrap()`; on an absent
token `remove_record` returns `Err("No UploadRecord Found")` and the
`unwrap` panics, so the handler crashes instead of answering not-found.
This theorem evaluates the download operation at the failing input (an
empty ledger, token "x", all filesystem calls fine). -/
theorem C1_absent_token_crashes :
    download effOk 0 false [] "x" = (.crash "No UploadRecord Found", [], false) := by
  decide

/-- C2.  In every ledger state reachable by any sequence of operations
(upload/insert, download, link view, explicit delete, reaper sweep),
every record satisfies `downloads ≤ max_downloads`, so
`downloads_remaining = max_downloads - downloads` never underflows and
is never negative. -/
theorem C2_download_count_invariant (m0 m : Ledger) (h0 : Good m0)
    (h : Reachable m0 m) (p : String × UploadRecord) (hp : p ∈ m) :
    p.2.downloads ≤ p.2.max_downloads ∧
      (p.2.downloads_remaining : Int) = (p.2.max_downloads : Int) - (p.2.downloads : Int) ∧
      (0 : Int) ≤ (p.2.max_downloads : Int) - (p.2.downloads : Int) := by
  have hg := good_reachable h0 h p hp
  refine ⟨hg, ?_, ?_⟩
  · unfold UploadRecord.downloads_remaining
    omega
  · omega

/-- C2, witness: the invariant at a concrete state reached from the
empty ledger by an upload followed by a successful download. -/
theorem C2_download_count_invariant_witness :
    ((⟨0, ".cache/serve/tok.zip", 1, 5⟩ : UploadRecord)).downloads
        ≤ ((⟨0, ".cache/serve/tok.zip", 1, 5⟩ : UploadRecord)).max_downloads ∧
      (((⟨0, ".cache/serve/tok.zip", 1, 5⟩ : UploadRecord)).downloads_remaining : Int)
        = (((⟨0, ".cache/serve/tok.zip", 1, 5⟩ : UploadRecord)).max_downloads : Int)
          - (((⟨0, ".cache/serve/tok.zip", 1, 5⟩ : UploadRecord)).downloads : Int) ∧
      (0 : Int) ≤ (((⟨0, ".cache/serve/tok.zip", 1, 5⟩ : UploadRecord)).max_downloads : Int)
          - (((⟨0, ".cache/serve/tok.zip", 1, 5⟩ : UploadRecord)).downloads : Int) :=
  C2_download_count_invariant [] _
    (fun p hp => absurd hp (List.not_mem_nil p))
    (Relation.ReflTransGen.tail
      (Relation.ReflTransGen.single (Step.upload [] effOk 0 "tok" []))
      (Step.dl _ effOk 0 false "tok"))
    ("tok", ⟨0, ".cache/serve/tok.zip", 1, 5⟩) (by decide)

/-- C3, counterexample.  The claim says an upload containing a part
named "../../etc/passwd" is rejected entirely, with no archive and no
token.  In `src/main.rs` the name is passed through the total `sanitize`
function and the upload proceeds: the response is a success carrying the
token, the token is in the ledger, and the archive holds one entry under
the sanitized name. -/
theorem C3_traversal_not_rejected :
    (upload_to_zip effOk 0 "tok" [⟨some "../../etc/passwd", [1, 2, 3]⟩] []).res
        = .ok "tok" ∧
      lookupRec "tok"
          (upload_to_zip effOk 0 "tok" [⟨some "../../etc/passwd", [1, 2, 3]⟩] []).ledger
        = some (UploadRecord.new 0 (archivePath "tok")) ∧
      (upload_to_zip effOk 0 "tok" [⟨some "../../etc/passwd", [1, 2, 3]⟩] []).entries
        = [("etcpasswd", [1, 2, 3])] := by
  decide

/-- C3, amended: a part whose filename has path-traversal components is
not rejected; the name is sanitized (a total function), the upload
succeeds with a token, and every archive entry name is free of path
separators. -/
theorem C3_sanitized_upload (now : Int) (token : String) (parts : List FormPart)
    (m : Ledger) :
    (upload_to_zip effOk now token parts m).res = .ok token ∧
      ∀ e ∈ (upload_to_zip effOk now token parts m).entries,
        ∀ c ∈ e.1.data, c ≠ '/' ∧ c ≠ '\\' := by
  constructor
  · simp [upload_to_zip, write_to_cache, effOk]
  · intro e he c hc
    have hent : (upload_to_zip effOk now token parts m).entries = processParts parts := by
      simp [upload_to_zip, write_to_cache, effOk]
    rw [hent] at he
    obtain ⟨p, hp, hpe⟩ := List.mem_filterMap.mp he
    cases hn : p.name with
    | none => rw [hn] at hpe; simp at hpe
    | some n =>
        rw [hn] at hpe
        simp only [Option.map_some', Option.some.injEq] at hpe
        have h1 : e.1 = sanitize n := by rw [hpe.symm]
        rw [h1] at hc
        exact sanitize_no_separator n c hc

/-- C3, witness for the amended claim at a concrete upload. -/
theorem C3_sanitized_upload_witness :
    (upload_to_zip effOk 0 "t" [⟨some "a/b", [7]⟩] []).res = .ok "t" ∧
      ('a' ≠ '/' ∧ 'a' ≠ '\\') :=
  ⟨(C3_sanitized_upload 0 "t" [⟨some "a/b", [7]⟩] []).1,
    (C3_sanitized_upload 0 "t" [⟨some "a/b", [7]⟩] []).2 ("ab", [7]) (by decide) 'a'
      (by decide)⟩

/-- C4, counterexample.  The claim says load never errors or crashes,
returning the empty mapping even for an empty or undeserializable
snapshot file.  `fetch_cache` in `src/cache.rs` unwraps the deserialize
result, so a present-but-empty snapshot file is a panic. -/
theorem C4_empty_snapshot_crashes :
    fetch_cache (some []) = .crash "deserialize failed" := by
  decide

/-- C4, amended: load of an absent snapshot file yields the empty
mapping; load of a present file yields the decoded mapping when
deserialization succeeds, and panics (unwrap) when it fails. -/
theorem C4_load_behavior :
    fetch_cache none = .ok [] ∧
      (∀ bytes m rest, decodeLedger bytes = some (m, rest) →
        fetch_cache (some bytes) = .ok m) ∧
      (∀ bytes, decodeLedger bytes = none →
        fetch_cache (some bytes) = .crash "deserialize failed") := by
  refine ⟨rfl, ?_, ?_⟩
  · intro bytes m rest h
    unfold fetch_cache
    simp only []
    rw [h]
  · intro bytes h
    unfold fetch_cache
    simp only []
    rw [h]

/-- C4, witness: the three behaviours at concrete snapshot contents. -/
theorem C4_load_behavior_witness :
    fetch_cache (some [0, 0, 0, 0, 0, 0, 0, 0]) = .ok [] ∧
      fetch_cache (some [1]) = .crash "deserialize failed" :=
  ⟨C4_load_behavior.2.1 [0, 0, 0, 0, 0, 0, 0, 0] [] [] (by decide),
    C4_load_behavior.2.2 [1] (by decide)⟩

/-- C5.  Saving a byte-valid ledger through `write_to_cache` and loading
the written bytes back through `fetch_cache` yields the identical
mapping, token set and per-record fields included. -/
theorem C5_snapshot_roundtrip (m : Ledger) (h : ByteValid m) :
    write_to_cache effOk m = .ok (encodeLedger m) ∧
      fetch_cache (some (encodeLedger m)) = .ok m := by
  refine ⟨rfl, ?_⟩
  unfold fetch_cache
  simp only []
  rw [decodeLedger_encodeLedger m h]

/-- C5, witness: the round trip at a concrete two-record ledger. -/
theorem C5_snapshot_roundtrip_witness :
    write_to_cache effOk
        [("t", ⟨-2, "f.zip", 1, 5⟩), ("u", ⟨7, "g.zip", 0, 5⟩)]
      = .ok (encodeLedger [("t", ⟨-2, "f.zip", 1, 5⟩), ("u", ⟨7, "g.zip", 0, 5⟩)]) ∧
      fetch_cache (some (encodeLedger
          [("t", ⟨-2, "f.zip", 1, 5⟩), ("u", ⟨7, "g.zip", 0, 5⟩)]))
        = .ok [("t", ⟨-2, "f.zip", 1, 5⟩), ("u", ⟨7, "g.zip", 0, 5⟩)] :=
  C5_snapshot_roundtrip [("t", ⟨-2, "f.zip", 1, 5⟩), ("u", ⟨7, "g.zip", 0, 5⟩)]
    (by decide)

/-- C6, counterexample.  The claim says file deletion is best-effort: an
I/O error during deletion is not a failure of remove, the ledger entry
is still removed and a snapshot still triggered.  In `src/state.rs`
`remove_record` propagates the `remove_file` error with `?` before
touching the entry: the call fails, the entry stays, no snapshot. -/
theorem C6_remove_not_best_effort :
    remove_record effNoRemove [("t", UploadRecord.new 0 "f")] "t"
      = (.err "file remove failed", [("t", UploadRecord.new 0 "f")], false) := by
  decide

/-- C6, amended: remove deletes the backing file first and propagates a
deletion error, leaving the ledger entry in place with no snapshot; when
deletion succeeds the entry is removed and a snapshot written; an absent
token fails with not-found. -/
theorem C6_remove_semantics (m : Ledger) (id : String) :
    (∀ r, lookupRec id m = some r →
        remove_record effOk m id = (.ok (), eraseRec id m, true) ∧
        remove_record effNoRemove m id = (.err "file remove failed", m, false)) ∧
      (lookupRec id m = none →
        remove_record effOk m id = (.err "No UploadRecord Found", m, false)) := by
  constructor
  · intro r hl
    constructor <;> · unfold remove_record; rw [hl]; rfl
  · intro hl
    unfold remove_record
    rw [hl]

/-- C6, witness: the three remove behaviours at concrete ledgers. -/
theorem C6_remove_semantics_witness :
    remove_record effOk [("t", UploadRecord.new 0 "f")] "t"
        = (.ok (), [], true) ∧
      remove_record effNoRemove [("u", UploadRecord.new 0 "g")] "u"
        = (.err "file remove failed", [("u", UploadRecord.new 0 "g")], false) ∧
      remove_record effOk [] "v" = (.err "No UploadRecord Found", [], false) :=
  ⟨((C6_remove_semantics [("t", UploadRecord.new 0 "f")] "t").1
      (UploadRecord.new 0 "f") (by decide)).1,
    ((C6_remove_semantics [("u", UploadRecord.new 0 "g")] "u").1
      (UploadRecord.new 0 "g") (by decide)).2,
    (C6_remove_semantics [] "v").2 (by decide)⟩

/-- C7, counterexample.  The claim says insert fails on token collision
and never silently overwrites, with the builder regenerating the token.
In `src/main.rs` the token is generated once and `HashMap::insert` is
called unconditionally: on a colliding token the upload succeeds and the
old live record is silently replaced by the new one. -/
theorem C7_insert_overwrites_on_collision :
    (upload_to_zip effOk 9 "t" [] [("t", ⟨5, "old.zip", 2, 5⟩)]).res = .ok "t" ∧
      lookupRec "t" (upload_to_zip effOk 9 "t" [] [("t", ⟨5, "old.zip", 2, 5⟩)]).ledger
        = some (UploadRecord.new 9 (archivePath "t")) ∧
      UploadRecord.new 9 (archivePath "t") ≠ ⟨5, "old.zip", 2, 5⟩ := by
  decide

/-- C7, amended: the upload path never fails on a collision; it inserts
the freshly built record under the generated token unconditionally, so
the token maps to the new record afterwards whatever was there before.
-/
theorem C7_insert_unconditional (now : Int) (token : String) (parts : List FormPart)
    (m : Ledger) :
    (upload_to_zip effOk now token parts m).res = .ok token ∧
      lookupRec token (upload_to_zip effOk now token parts m).ledger
        = some (UploadRecord.new now (archivePath token)) := by
  constructor
  · simp [upload_to_zip, write_to_cache, effOk]
  · have hled : (upload_to_zip effOk now token parts m).ledger
        = insertRec token (UploadRecord.new now (archivePath token)) m := by
      simp [upload_to_zip, write_to_cache, effOk]
    rw [hled, lookupRec_insertRec_self]

/-- C7, witness for the amended claim at a concrete collision. -/
theorem C7_insert_unconditional_witness :
    (upload_to_zip effOk 3 "w" [] [("w", ⟨0, "x.zip", 1, 5⟩)]).res = .ok "w" ∧
      lookupRec "w" (upload_to_zip effOk 3 "w" [] [("w", ⟨0, "x.zip", 1, 5⟩)]).ledger
        = some (UploadRecord.new 3 (archivePath "w")) :=
  C7_insert_unconditional 3 "w" [] [("w", ⟨0, "x.zip", 1, 5⟩)]

/-- C8, counterexample.  The claim says the completed record is handed
to the ledger only after the archive is finalized (footer written).  In
`src/main.rs` the insertion and the cache snapshot happen before
`writer.close()`: in the upload event trace the ledger insertion occurs
strictly before the archive close. -/
theorem C8_insert_before_finalize :
    (upload_to_zip effOk 0 "t" [] []).res = .ok "t" ∧
      UEvent.insertLedger ∈
        (upload_to_zip effOk 0 "t" [] []).events.takeWhile
          (fun e => !(e == UEvent.closeArchive)) := by
  decide

/-- C8, amended: on every successful upload the record is inserted into
the ledger (and the snapshot written) before the archive writer is
closed — the insertion event always precedes any close event. -/
theorem C8_insert_precedes_close (now : Int) (token : String) (parts : List FormPart)
    (m : Ledger) :
    UEvent.insertLedger ∈
      (upload_to_zip effOk now token parts m).events.takeWhile
        (fun e => !(e == UEvent.closeArchive)) := by
  have hev : (upload_to_zip effOk now token parts m).events
      = UEvent.createArchive ::
        ((processParts parts).map (fun e => UEvent.writeEntry e.1) ++
          [UEvent.insertLedger, UEvent.writeCache, UEvent.closeArchive]) := by
    simp [upload_to_zip, write_to_cache, effOk]
  rw [hev]
  rw [List.takeWhile_cons]
  have h1 : (!(UEvent.createArchive == UEvent.closeArchive)) = true := rfl
  rw [h1]
  simp only [if_true]
  exact List.mem_cons_of_mem _ (insertLedger_mem_takeWhile (processParts parts))

/-- C8, witness for the amended claim at a concrete upload. -/
theorem C8_insert_precedes_close_witness :
    UEvent.insertLedger ∈
      (upload_to_zip effOk 1 "z" [⟨some "a.txt", [1]⟩] []).events.takeWhile
        (fun e => !(e == UEvent.closeArchive)) :=
  C8_insert_precedes_close 1 "z" [⟨some "a.txt", [1]⟩] []

/-- C9.  The claim says the link lookup gives the caller a not-found
outcome when the token is absent.  As in the download handler, the
fallthrough in `src/main.rs` is `state.remove_record(&id).await.unwrap()`,
which panics on the `Err` produced for an absent token.  This theorem
evaluates the link operation at the failing input. -/
theorem C9_link_absent_token_crashes :
    link effOk 0 [] "x" = (.crash "No UploadRecord Found", [], false) := by
  decide

/-- C10, counterexample.  The claim says no core operation panics.  The
snapshot save (`write_to_cache` in `src/cache.rs`) unwraps
`File::create(".cache/data")`, so a failing create is a panic. -/
theorem C10_snapshot_save_crashes :
    write_to_cache effNoCacheCreate [] = .crash "cache file create failed" := by
  decide

/-- C10, amended: the core can panic — snapshot save panics when the
cache file cannot be created; the reaper sweep panics when deleting a
stale record's backing file fails; downloading a present, eligible
record panics when the backing file cannot be opened (after the counter
was already incremented). -/
theorem C10_crash_modes (m : Ledger) :
    write_to_cache effNoCacheCreate m = .crash "cache file create failed" ∧
      (reaperSweep effNoRemove 259200 [("t", UploadRecord.new 0 "f")]).1
        = .crash "file remove failed" ∧
      download effNoOpen 1 false [("t", UploadRecord.new 0 "f")] "t"
        = (.crash "file open failed",
            [("t", ⟨0, "f", 1, 5⟩)], false) := by
  refine ⟨rfl, by decide, by decide⟩

/-- C10, witness for the amended claim at a concrete ledger. -/
theorem C10_crash_modes_witness :
    write_to_cache effNoCacheCreate [("k", UploadRecord.new 0 "h")]
        = .crash "cache file create failed" ∧
      (reaperSweep effNoRemove 259200 [("t", UploadRecord.new 0 "f")]).1
        = .crash "file remove failed" ∧
      download effNoOpen 1 false [("t", UploadRecord.new 0 "f")] "t"
        = (.crash "file open failed", [("t", ⟨0, "f", 1, 5⟩)], false) :=
  C10_crash_modes [("k", UploadRecord.new 0 "h")]
